import Mathlib

/-!
Verification of the mic-pitch repository: a shallow embedding of
`src/pitch.js` (the YIN pitch estimator) and of the `MicPitch` pipeline
orchestrator (`src/unnamed/part_000`), with theorems settling the frozen
claims about the natural-language specification.

Modelling conventions:
* JavaScript numbers are modelled by exact rationals `ℚ`.  Every rational is
  finite, so JavaScript's `isFinite` test is identically true in the model;
  the `freq <= 0` rejection covers the division-by-zero artifact (JS produces
  `Infinity`, rejected by `isFinite`; the `ℚ` model produces `0`, rejected by
  `freq ≤ 0` — the observable result, `null`, agrees).
* A `Float32Array` sample block is modelled by `Samples`: a length together
  with an index function (out-of-range indices are never read: every loop in
  the source stays in bounds).
* `null` is modelled by `Option.none`.
* A subscriber callback that may throw is modelled as a function into
  `Except Unit Unit`; the `try { cb(freq) } catch {}` of `_emit` is modelled
  by the notification loop continuing regardless of a callback's outcome.
-/

namespace MicPitchModel

/-- A time-domain sample block (`Float32Array buffer`): its length and its
contents as an index function. -/
structure Samples where
  size : ℕ
  get : ℕ → ℚ

/-- The options actually read by `detectPitchYIN` (after `??`-defaulting). -/
structure YinOptions where
  minFreq : ℚ
  maxFreq : ℚ
  threshold : ℚ

/-- Source `pitch.js` line 27: `tauMin = Math.max(2, Math.floor(sampleRate / maxFreq))`.
`Int.toNat` is harmless under the outer `max 2`: whenever the floor is
negative the JS value is also dominated by the `2`. -/
def yinTauMin (sampleRate maxFreq : ℚ) : ℕ :=
  max 2 (Int.toNat ⌊sampleRate / maxFreq⌋)

/-- Source `pitch.js` line 28: `tauMax = Math.min(bufSize - 3, Math.floor(sampleRate / minFreq))`. -/
def yinTauMax (bufSize : ℕ) (sampleRate minFreq : ℚ) : ℕ :=
  min (bufSize - 3) (Int.toNat ⌊sampleRate / minFreq⌋)

/-- Source `pitch.js` lines 35–42, the difference function
`d(tau) = Σ_{i=0}^{bufSize-tau-1} (buffer[i] - buffer[i+tau])^2`. -/
def diffFn (buffer : Samples) (tau : ℕ) : ℚ :=
  ((List.range (buffer.size - tau)).map
    (fun i => (buffer.get i - buffer.get (i + tau)) * (buffer.get i - buffer.get (i + tau)))).sum

/-- The running sum of `pitch.js` lines 45–47 after processing lag `tau`:
`d(1) + ⋯ + d(tau)`.  (The loop reads each raw `yin[tau]` before overwriting
it, so the running sum is over the raw difference values.) -/
def cmndDen (buffer : Samples) (tau : ℕ) : ℚ :=
  ((List.range tau).map (fun k => diffFn buffer (k + 1))).sum

/-- Source `pitch.js` lines 44–50, the cumulative mean normalized difference:
`cmnd(tau) = d(tau)·tau / (runningSum || 1)` with `cmnd(0) = 1`. -/
def cmnd (buffer : Samples) (tau : ℕ) : ℚ :=
  if tau = 0 then 1
  else
    diffFn buffer tau * tau /
      (if cmndDen buffer tau = 0 then 1 else cmndDen buffer tau)

/-- Source `pitch.js` lines 57–59: starting from a lag below the threshold, walk
right while the next value is strictly smaller.  The fuel argument is the
number of remaining lags (`tauMax - tau` suffices, since each step needs
`tau + 1 ≤ tauMax`). -/
def descend (f : ℕ → ℚ) (tauMax : ℕ) : ℕ → ℕ → ℕ
  | 0, tau => tau
  | fuel + 1, tau =>
    if tau + 1 ≤ tauMax ∧ f (tau + 1) < f tau then descend f tauMax fuel (tau + 1)
    else tau

/-- Source `pitch.js` lines 53–63: scan `tau` from `tauMin` to `tauMax`, and at the
first lag whose value is under the threshold, descend to the local minimum. -/
def firstUnder (f : ℕ → ℚ) (thr : ℚ) (tauMin tauMax : ℕ) : Option ℕ :=
  ((List.range' tauMin (tauMax + 1 - tauMin)).find? (fun tau => decide (f tau < thr))).map
    (fun tau => descend f tauMax (tauMax - tau) tau)

/-- One step of the fallback scan of `pitch.js` lines 66–72.  The accumulator
is `none` while `minVal` is still `Infinity` (every finite value compares
below it, so the first lag is always taken). -/
def fallbackStep (f : ℕ → ℚ) (acc : Option (ℚ × ℕ)) (tau : ℕ) : Option (ℚ × ℕ) :=
  match acc with
  | none => some (f tau, tau)
  | some (minVal, tauEstimate) =>
    if f tau < minVal then some (f tau, tau) else some (minVal, tauEstimate)

/-- Source `pitch.js` lines 64–74: the fallback global-minimum search over
`[tauMin, tauMax]`; `none` models `tauEstimate === -1`. -/
def fallbackMin (f : ℕ → ℚ) (tauMin tauMax : ℕ) : Option ℕ :=
  ((List.range' tauMin (tauMax + 1 - tauMin)).foldl (fallbackStep f) none).map Prod.snd

/-- Source `pitch.js` lines 52–74: the candidate lag — the threshold search, falling
back to the global minimum when no lag is under the threshold. -/
def yinCandidate (buffer : Samples) (thr : ℚ) (tauMin tauMax : ℕ) : Option ℕ :=
  match firstUnder (cmnd buffer) thr tauMin tauMax with
  | some tauEstimate => some tauEstimate
  | none => fallbackMin (cmnd buffer) tauMin tauMax

/-- Source `pitch.js` lines 76–86, parabolic interpolation: refine the candidate lag
when `tauEstimate > 1 && tauEstimate < tauMax` and the denominator is
nonzero. -/
def refineTau (f : ℕ → ℚ) (tauMax tauEstimate : ℕ) : ℚ :=
  if 1 < tauEstimate ∧ tauEstimate < tauMax then
    if 2 * (2 * f tauEstimate - f (tauEstimate - 1) - f (tauEstimate + 1)) = 0 then
      (tauEstimate : ℚ)
    else
      (tauEstimate : ℚ) +
        (f (tauEstimate + 1) - f (tauEstimate - 1)) /
          (2 * (2 * f tauEstimate - f (tauEstimate - 1) - f (tauEstimate + 1)))
  else (tauEstimate : ℚ)

/-- Source `pitch.js` lines 88–91: the final range guard on the computed frequency.
`isFinite` is identically true in the exact model (see the header note). -/
def yinGuard (opts : YinOptions) (freq : ℚ) : Option ℚ :=
  if freq ≤ 0 then none
  else if freq < opts.minFreq ∨ opts.maxFreq < freq then none
  else some freq

/-- Source `pitch.js` lines 76–91: interpolation followed by the frequency
computation `freq = sampleRate / betterTau` and the range guard. -/
def yinFinalize (buffer : Samples) (sampleRate : ℚ) (opts : YinOptions)
    (tauEstimate : ℕ) : Option ℚ :=
  yinGuard opts
    (sampleRate /
      refineTau (cmnd buffer) (yinTauMax buffer.size sampleRate opts.minFreq) tauEstimate)

/-- Source `pitch.js` lines 19–92: `detectPitchYIN(buffer, sampleRate, options)`. -/
def detectPitchYIN (buffer : Samples) (sampleRate : ℚ) (opts : YinOptions) : Option ℚ :=
  if buffer.size < 512 then none
  else if yinTauMax buffer.size sampleRate opts.minFreq ≤ yinTauMin sampleRate opts.maxFreq then
    none
  else
    match
      yinCandidate buffer opts.threshold (yinTauMin sampleRate opts.maxFreq)
        (yinTauMax buffer.size sampleRate opts.minFreq) with
    | none => none
    | some tauEstimate => yinFinalize buffer sampleRate opts tauEstimate

/-! ## The `MicPitch` pipeline orchestrator (`src/unnamed/part_000`)

The Web-Audio plumbing (`AudioContext`, analyser, media streams, the
`setInterval` driver) is the external environment; the modelled state is the
pipeline state the claims are about: the merged options, the smoothed
frequency `_emaFreq`, the history, and the `_running` flag.  `tick` models
one cycle of `_loop` from the point where the gated raw estimate `freq`
(`null` when the RMS gate rejects the block or the detector abstains) has
been computed; the RMS gate itself takes a square root, which has no exact
rational counterpart, and no claim concerns it. -/

/-- The caller-supplied options object: any subset of the numeric fields may
be present (the `deviceId` field only configures the external audio device
and is not part of the pipeline state). -/
structure UserOptions where
  minFreq : Option ℚ := none
  maxFreq : Option ℚ := none
  threshold : Option ℚ := none
  fftSize : Option ℚ := none
  updateIntervalMs : Option ℚ := none
  smoothing : Option ℚ := none
  averageSeconds : Option ℚ := none
  minRms : Option ℚ := none

/-- The fully-populated options record held in `this.options`. -/
structure Options where
  minFreq : ℚ
  maxFreq : ℚ
  threshold : ℚ
  fftSize : ℚ
  updateIntervalMs : ℚ
  smoothing : ℚ
  averageSeconds : ℚ
  minRms : ℚ
deriving DecidableEq

/-- Source `part_000` lines 18–28: the spread `{ ...defaults, ...options }` — each
supplied field overrides its default. -/
def mergeOptions (p : UserOptions) : Options where
  minFreq := p.minFreq.getD 50
  maxFreq := p.maxFreq.getD 2000
  threshold := p.threshold.getD (1 / 10)
  fftSize := p.fftSize.getD 2048
  updateIntervalMs := p.updateIntervalMs.getD 50
  smoothing := p.smoothing.getD (1 / 4)
  averageSeconds := p.averageSeconds.getD 1
  minRms := p.minRms.getD (1 / 100)

/-- One `this._history` entry `{ t, f }`. -/
structure HistEntry where
  t : ℚ
  f : Option ℚ
deriving DecidableEq

/-- The pipeline state of a `MicPitch` instance. -/
structure MicState where
  options : Options
  emaFreq : Option ℚ
  history : List HistEntry
  running : Bool
deriving DecidableEq

/-- Source `part_000` lines 17–45, the constructor: merge the options and
initialize `_emaFreq = null`, `_history = []`, `_running = false`.  There is
no validation and no failure path. -/
def construct (p : UserOptions) : MicState where
  options := mergeOptions p
  emaFreq := none
  history := []
  running := false

/-- Follows the SPEC's words (§6 `configure`, §7, and the §3 invariant), not
the source, for comparison with `construct`: configuration "fails validation
if minFreq ≥ maxFreq, any value ≤ 0, or α outside [0,1]". -/
def specValidOptions (o : Options) : Prop :=
  o.minFreq < o.maxFreq ∧ 0 < o.minFreq ∧ 0 < o.maxFreq ∧ 0 < o.threshold ∧
    0 < o.fftSize ∧ 0 < o.updateIntervalMs ∧ 0 < o.averageSeconds ∧ 0 < o.minRms ∧
    0 ≤ o.smoothing ∧ o.smoothing ≤ 1

instance (o : Options) : Decidable (specValidOptions o) := by
  unfold specValidOptions; infer_instance

/-- Follows the SPEC's words, not the source: a constructor that fails (yields
no instance) on invalid options, for comparison with the total `construct`. -/
def specConstruct (p : UserOptions) : Option MicState :=
  if specValidOptions (mergeOptions p) then some (construct p) else none

/-- Source `part_000` lines 60–76, `start()`: the early return when already running,
otherwise the state-relevant effect of the success path (`_running = true`;
`_emaFreq` and `_history` are untouched — they are only reset by `stop`).
The Web-Audio acquisition it also performs is external. -/
def start (s : MicState) : MicState :=
  if s.running then s else { s with running := true }

/-- Source `part_000` lines 78–103, `stop()`: the early return when not running,
otherwise tear down and reset `_emaFreq = null`, `_history = []`,
`_running = false`. -/
def stop (s : MicState) : MicState :=
  if s.running then { s with emaFreq := none, history := [], running := false } else s

/-- Source `part_000` lines 204–216, the exponential-smoothing step of `tick`:
`prior` is `this._emaFreq`, `current` the cycle's raw estimate; the result is
the new `this._emaFreq`. -/
def smoothStep (prior current : Option ℚ) (smoothing : ℚ) : Option ℚ :=
  match current with
  | none => none
  | some freq =>
    match prior with
    | none => some freq
    | some ema =>
      if 0 < smoothing then
        some (min (max smoothing 0) 1 * freq + (1 - min (max smoothing 0) 1) * ema)
      else some freq

/-- Source `part_000` line 222: the eviction cutoff
`now - Math.max(1, averageSeconds) * 1000 - 200`. -/
def evictCutoff (now averageSeconds : ℚ) : ℚ :=
  now - max 1 averageSeconds * 1000 - 200

/-- Source `part_000` lines 223–225: `while (history.length && history[0].t < cutoff)
history.shift()`. -/
def trimFront (cutoff : ℚ) : List HistEntry → List HistEntry
  | [] => []
  | e :: rest => if e.t < cutoff then trimFront cutoff rest else e :: rest

/-- Source `part_000` lines 170–177, the scan of `getAverageFrequency`: the history
is walked from its last entry backwards (here: along the reversed list),
stopping at the first entry older than the cutoff, accumulating the sum and
count of the present values (`item.f != null && isFinite(item.f)`;
finiteness is identically true in the exact model). -/
def avgScan (cutoff : ℚ) : List HistEntry → ℚ → ℕ → ℚ × ℕ
  | [], sum, count => (sum, count)
  | e :: rest, sum, count =>
    if e.t < cutoff then (sum, count)
    else
      match e.f with
      | some v => avgScan cutoff rest (sum + v) (count + 1)
      | none => avgScan cutoff rest sum count

/-- Source `part_000` lines 165–179, `getAverageFrequency(seconds)` evaluated at
time `now`: `null` when no qualifying present value exists, otherwise
`sum / count`. -/
def getAverageFrequency (history : List HistEntry) (now seconds : ℚ) : Option ℚ :=
  if (avgScan (now - seconds * 1000) history.reverse 0 0).2 = 0 then none
  else
    some
      ((avgScan (now - seconds * 1000) history.reverse 0 0).1 /
        (avgScan (now - seconds * 1000) history.reverse 0 0).2)

/-- A subscriber callback: invoked with the cycle's smoothed value, it either
returns normally or throws (`Except.error`). -/
def Listener : Type := Option ℚ → Except Unit Unit

/-- Source `part_000` lines 181–185, `_emit`: every callback is invoked with the
same value inside `try { cb(freq) } catch {}`, so the loop continues past a
throwing callback; the list collects each callback's outcome. -/
def emit : List Listener → Option ℚ → List (Except Unit Unit)
  | [], _ => []
  | cb :: rest, v => cb v :: emit rest v

/-- Source `part_000` lines 190–228, one cycle of `tick` given the gated raw
estimate `freq`: smooth, append `{ t: now, f: ema }`, trim expired history,
then notify the listeners with the smoothed value.  Returns the new state
and the listener outcomes. -/
def tick (s : MicState) (freq : Option ℚ) (now : ℚ) (listeners : List Listener) :
    MicState × List (Except Unit Unit) :=
  ({ s with
      emaFreq := smoothStep s.emaFreq freq s.options.smoothing
      history :=
        trimFront (evictCutoff now s.options.averageSeconds)
          (s.history ++ [{ t := now, f := smoothStep s.emaFreq freq s.options.smoothing }]) },
    emit listeners (smoothStep s.emaFreq freq s.options.smoothing))

/-- The present (non-null) values among the history entries with timestamp at
or after the cutoff — the values the spec says the windowed average is the
mean of. -/
def qualVals (cutoff : ℚ) (l : List HistEntry) : List ℚ :=
  (l.filter (fun e => decide (cutoff ≤ e.t))).filterMap (fun e => e.f)

/-! ## Concrete evaluations

A 512-sample block with period 4 (`1,0,0,0,1,0,0,0,…`), sampled at 100 Hz,
exercises the estimator concretely.  Summing 509 rationals in one kernel
reduction nests too deeply, so the difference-function sums are split in two
before evaluating each half. -/

set_option maxRecDepth 8000

/-- The 512-sample block `1,0,0,0,1,0,0,0,…` (period 4). -/
def buf512 : Samples := ⟨512, fun i => if i % 4 = 0 then 1 else 0⟩

lemma sum_range_chunk (f : ℕ → ℚ) (a b : ℕ) :
    ((List.range (a + b)).map f).sum
      = ((List.range' 0 b).map f).sum + ((List.range' b a).map f).sum := by
  have h := List.range'_append_1 0 b a
  rw [Nat.zero_add] at h
  rw [List.range_eq_range', ← h, List.map_append, List.sum_append]

lemma diffFn_chunk (buffer : Samples) (tau a b : ℕ) (h : buffer.size - tau = a + b) :
    diffFn buffer tau
      = ((List.range' 0 b).map
          (fun i => (buffer.get i - buffer.get (i + tau)) * (buffer.get i - buffer.get (i + tau)))).sum
        + ((List.range' b a).map
          (fun i => (buffer.get i - buffer.get (i + tau)) * (buffer.get i - buffer.get (i + tau)))).sum := by
  rw [diffFn, h, sum_range_chunk]

lemma buf512_d1 : diffFn buf512 1 = 255 := by
  rw [diffFn_chunk buf512 1 255 256 rfl]; with_unfolding_all decide

lemma buf512_d2 : diffFn buf512 2 = 255 := by
  rw [diffFn_chunk buf512 2 254 256 rfl]; with_unfolding_all decide

lemma buf512_d3 : diffFn buf512 3 = 255 := by
  rw [diffFn_chunk buf512 3 253 256 rfl]; with_unfolding_all decide

lemma buf512_d4 : diffFn buf512 4 = 0 := by
  rw [diffFn_chunk buf512 4 252 256 rfl]; with_unfolding_all decide

lemma buf512_d5 : diffFn buf512 5 = 253 := by
  rw [diffFn_chunk buf512 5 251 256 rfl]; with_unfolding_all decide

lemma buf512_cd2 : cmndDen buf512 2 = 510 := by
  rw [show cmndDen buf512 2 = diffFn buf512 1 + (diffFn buf512 2 + 0) from rfl,
    buf512_d1, buf512_d2]
  norm_num

lemma buf512_cd3 : cmndDen buf512 3 = 765 := by
  rw [show cmndDen buf512 3 = diffFn buf512 1 + (diffFn buf512 2 + (diffFn buf512 3 + 0)) from rfl,
    buf512_d1, buf512_d2, buf512_d3]
  norm_num

lemma buf512_cd4 : cmndDen buf512 4 = 765 := by
  rw [show cmndDen buf512 4
      = diffFn buf512 1 + (diffFn buf512 2 + (diffFn buf512 3 + (diffFn buf512 4 + 0))) from rfl,
    buf512_d1, buf512_d2, buf512_d3, buf512_d4]
  norm_num

lemma buf512_cd5 : cmndDen buf512 5 = 1018 := by
  rw [show cmndDen buf512 5
      = diffFn buf512 1
        + (diffFn buf512 2 + (diffFn buf512 3 + (diffFn buf512 4 + (diffFn buf512 5 + 0))))
    from rfl,
    buf512_d1, buf512_d2, buf512_d3, buf512_d4, buf512_d5]
  norm_num

lemma buf512_c2 : cmnd buf512 2 = 1 := by
  rw [show cmnd buf512 2
      = diffFn buf512 2 * 2 / (if cmndDen buf512 2 = 0 then 1 else cmndDen buf512 2) from rfl,
    buf512_d2, buf512_cd2]
  norm_num

lemma buf512_c3 : cmnd buf512 3 = 1 := by
  rw [show cmnd buf512 3
      = diffFn buf512 3 * 3 / (if cmndDen buf512 3 = 0 then 1 else cmndDen buf512 3) from rfl,
    buf512_d3, buf512_cd3]
  norm_num

lemma buf512_c4 : cmnd buf512 4 = 0 := by
  rw [show cmnd buf512 4
      = diffFn buf512 4 * 4 / (if cmndDen buf512 4 = 0 then 1 else cmndDen buf512 4) from rfl,
    buf512_d4, buf512_cd4]
  norm_num

lemma buf512_c5 : cmnd buf512 5 = 1265 / 1018 := by
  rw [show cmnd buf512 5
      = diffFn buf512 5 * 5 / (if cmndDen buf512 5 = 0 then 1 else cmndDen buf512 5) from rfl,
    buf512_d5, buf512_cd5]
  norm_num

lemma buf512_desc : descend (cmnd buf512) 10 6 4 = 4 := by
  rw [show descend (cmnd buf512) 10 6 4
      = if 4 + 1 ≤ 10 ∧ cmnd buf512 (4 + 1) < cmnd buf512 4 then descend (cmnd buf512) 10 5 (4 + 1)
        else 4
    from rfl]
  rw [show (4 : ℕ) + 1 = 5 from rfl, buf512_c4, buf512_c5]
  norm_num

lemma find?_cons_true {α : Type} (p : α → Bool) (a : α) (l : List α) (h : p a = true) :
    List.find? p (a :: l) = some a := by
  rw [List.find?_cons, h]

lemma find?_cons_false {α : Type} (p : α → Bool) (a : α) (l : List α) (h : p a = false) :
    List.find? p (a :: l) = List.find? p l := by
  rw [List.find?_cons, h]

lemma buf512_fuA : firstUnder (cmnd buf512) (1 / 10) 4 10 = some 4 := by
  rw [firstUnder, show List.range' 4 (10 + 1 - 4) = [4, 5, 6, 7, 8, 9, 10] from rfl,
    find?_cons_true (fun tau => decide (cmnd buf512 tau < 1 / 10)) 4 [5, 6, 7, 8, 9, 10]
      (show decide (cmnd buf512 4 < 1 / 10) = true by
        rw [buf512_c4]; with_unfolding_all decide)]
  show some (descend (cmnd buf512) 10 (10 - 4) 4) = some 4
  rw [show (10 : ℕ) - 4 = 6 from rfl, buf512_desc]

lemma buf512_fuB : firstUnder (cmnd buf512) (1 / 10) 3 10 = some 4 := by
  rw [firstUnder, show List.range' 3 (10 + 1 - 3) = [3, 4, 5, 6, 7, 8, 9, 10] from rfl,
    find?_cons_false (fun tau => decide (cmnd buf512 tau < 1 / 10)) 3 [4, 5, 6, 7, 8, 9, 10]
      (show decide (cmnd buf512 3 < 1 / 10) = false by
        rw [buf512_c3]; with_unfolding_all decide),
    find?_cons_true (fun tau => decide (cmnd buf512 tau < 1 / 10)) 4 [5, 6, 7, 8, 9, 10]
      (show decide (cmnd buf512 4 < 1 / 10) = true by
        rw [buf512_c4]; with_unfolding_all decide)]
  show some (descend (cmnd buf512) 10 (10 - 4) 4) = some 4
  rw [show (10 : ℕ) - 4 = 6 from rfl, buf512_desc]

lemma buf512_fuF : firstUnder (cmnd buf512) (1 / 2) 2 4 = some 4 := by
  rw [firstUnder, show List.range' 2 (4 + 1 - 2) = [2, 3, 4] from rfl,
    find?_cons_false (fun tau => decide (cmnd buf512 tau < 1 / 2)) 2 [3, 4]
      (show decide (cmnd buf512 2 < 1 / 2) = false by
        rw [buf512_c2]; with_unfolding_all decide),
    find?_cons_false (fun tau => decide (cmnd buf512 tau < 1 / 2)) 3 [4]
      (show decide (cmnd buf512 3 < 1 / 2) = false by
        rw [buf512_c3]; with_unfolding_all decide),
    find?_cons_true (fun tau => decide (cmnd buf512 tau < 1 / 2)) 4 []
      (show decide (cmnd buf512 4 < 1 / 2) = true by
        rw [buf512_c4]; with_unfolding_all decide)]
  show some (descend (cmnd buf512) 4 (4 - 4) 4) = some 4
  exact rfl

lemma buf512_candA : yinCandidate buf512 (1 / 10) 4 10 = some 4 := by
  rw [yinCandidate, buf512_fuA]

lemma buf512_candB : yinCandidate buf512 (1 / 10) 3 10 = some 4 := by
  rw [yinCandidate, buf512_fuB]

lemma buf512_candF : yinCandidate buf512 (1 / 2) 2 4 = some 4 := by
  rw [yinCandidate, buf512_fuF]

lemma buf512_ref : refineTau (cmnd buf512) 10 4 = 18017 / 4566 := by
  rw [show refineTau (cmnd buf512) 10 4
      = if 1 < 4 ∧ 4 < 10 then
          if 2 * (2 * cmnd buf512 4 - cmnd buf512 3 - cmnd buf512 5) = 0 then ((4 : ℕ) : ℚ)
          else ((4 : ℕ) : ℚ)
            + (cmnd buf512 5 - cmnd buf512 3) /
              (2 * (2 * cmnd buf512 4 - cmnd buf512 3 - cmnd buf512 5))
        else ((4 : ℕ) : ℚ) from rfl]
  rw [buf512_c3, buf512_c4, buf512_c5]
  rw [if_pos (show (1 : ℕ) < 4 ∧ (4 : ℕ) < 10 by omega)]
  rw [if_neg (show ¬ 2 * (2 * (0 : ℚ) - 1 - 1265 / 1018) = 0 by norm_num)]
  norm_num

lemma yinFinalize_eq (buffer : Samples) (sr : ℚ) (opts : YinOptions) (t tm : ℕ)
    (htm : yinTauMax buffer.size sr opts.minFreq = tm) :
    yinFinalize buffer sr opts t = yinGuard opts (sr / refineTau (cmnd buffer) tm t) := by
  rw [yinFinalize, htm]

lemma detect_eq_finalize (buffer : Samples) (sr : ℚ) (opts : YinOptions)
    (thr : ℚ) (tmin tmax t : ℕ)
    (h512 : ¬ buffer.size < 512)
    (hthr : opts.threshold = thr)
    (hmin : yinTauMin sr opts.maxFreq = tmin)
    (hmax : yinTauMax buffer.size sr opts.minFreq = tmax)
    (hrange : ¬ tmax ≤ tmin)
    (hc : yinCandidate buffer thr tmin tmax = some t) :
    detectPitchYIN buffer sr opts = yinFinalize buffer sr opts t := by
  unfold detectPitchYIN
  rw [hthr, hmin, hmax, if_neg h512, if_neg hrange, hc]

lemma buf512_finA : yinFinalize buf512 100 ⟨10, 25, 1 / 10⟩ 4 = none := by
  rw [yinFinalize_eq buf512 100 ⟨10, 25, 1 / 10⟩ 4 10 (by with_unfolding_all decide), buf512_ref,
    yinGuard]
  rw [show YinOptions.minFreq ⟨10, 25, 1 / 10⟩ = 10 from rfl,
    show YinOptions.maxFreq ⟨10, 25, 1 / 10⟩ = 25 from rfl]
  rw [if_neg (show ¬ (100 : ℚ) / (18017 / 4566) ≤ 0 by norm_num)]
  rw [if_pos (Or.inr (show (25 : ℚ) < 100 / (18017 / 4566) by norm_num))]

lemma buf512_finB : yinFinalize buf512 100 ⟨10, 30, 1 / 10⟩ 4 = some (456600 / 18017) := by
  rw [yinFinalize_eq buf512 100 ⟨10, 30, 1 / 10⟩ 4 10 (by with_unfolding_all decide), buf512_ref,
    yinGuard]
  rw [show YinOptions.minFreq ⟨10, 30, 1 / 10⟩ = 10 from rfl,
    show YinOptions.maxFreq ⟨10, 30, 1 / 10⟩ = 30 from rfl]
  rw [if_neg (show ¬ (100 : ℚ) / (18017 / 4566) ≤ 0 by norm_num)]
  rw [if_neg (show ¬ ((100 : ℚ) / (18017 / 4566) < 10 ∨ (30 : ℚ) < 100 / (18017 / 4566)) by
    push_neg
    constructor <;> norm_num)]
  rw [show (100 : ℚ) / (18017 / 4566) = 456600 / 18017 by norm_num]

lemma buf512_detectA : detectPitchYIN buf512 100 ⟨10, 25, 1 / 10⟩ = none := by
  rw [detect_eq_finalize buf512 100 ⟨10, 25, 1 / 10⟩ (1 / 10) 4 10 4 (by decide) rfl
    (by with_unfolding_all decide) (by with_unfolding_all decide) (by decide) buf512_candA]
  exact buf512_finA

lemma buf512_detectB : detectPitchYIN buf512 100 ⟨10, 30, 1 / 10⟩ = some (456600 / 18017) := by
  rw [detect_eq_finalize buf512 100 ⟨10, 30, 1 / 10⟩ (1 / 10) 3 10 4 (by decide) rfl
    (by with_unfolding_all decide) (by with_unfolding_all decide) (by decide) buf512_candB]
  exact buf512_finB

/-! ## Theorems about the YIN estimator -/

lemma yinGuard_bounds (opts : YinOptions) (q f : ℚ) (h : yinGuard opts q = some f) :
    0 < f ∧ opts.minFreq ≤ f ∧ f ≤ opts.maxFreq := by
  unfold yinGuard at h
  split at h
  · exact absurd h (by simp)
  · split at h
    · exact absurd h (by simp)
    · rename_i hpos hrange
      injection h with hqf
      subst hqf
      push_neg at hpos hrange
      exact ⟨hpos, hrange.1, hrange.2⟩

lemma detect_some (buffer : Samples) (sampleRate : ℚ) (opts : YinOptions) (f : ℚ)
    (h : detectPitchYIN buffer sampleRate opts = some f) :
    ∃ t, yinFinalize buffer sampleRate opts t = some f := by
  unfold detectPitchYIN at h
  split at h
  · exact absurd h (by simp)
  · split at h
    · exact absurd h (by simp)
    · split at h
      · exact absurd h (by simp)
      · rename_i t ht
        exact ⟨t, h⟩

/-- Claim C2: for every buffer, sample rate, and options with
`0 < minFreq < maxFreq`, whenever `detectPitchYIN` returns a present value
`f`, it satisfies `0 < f` and `minFreq ≤ f ≤ maxFreq` (every rational of the
exact model is finite, so the `isFinite` part of the claim holds by
construction); in all other cases the function returns `none`. -/
theorem detect_freq_within_bounds (buffer : Samples) (sampleRate : ℚ) (opts : YinOptions)
    (hmin : 0 < opts.minFreq) (hminmax : opts.minFreq < opts.maxFreq) (f : ℚ)
    (h : detectPitchYIN buffer sampleRate opts = some f) :
    0 < f ∧ opts.minFreq ≤ f ∧ f ≤ opts.maxFreq := by
  obtain ⟨t, ht⟩ := detect_some buffer sampleRate opts f h
  rw [yinFinalize] at ht
  exact yinGuard_bounds opts _ f ht

/-- Witness for C2: on the period-4 test block with options
`minFreq = 10, maxFreq = 30, threshold = 1/10`, the detector returns
`456600/18017 ≈ 25.34 Hz`, which the theorem places inside `[10, 30]`. -/
theorem detect_freq_within_bounds_witness :
    0 < (456600 : ℚ) / 18017 ∧ (10 : ℚ) ≤ 456600 / 18017 ∧ (456600 : ℚ) / 18017 ≤ 30 :=
  detect_freq_within_bounds buf512 100 ⟨10, 30, 1 / 10⟩ (by norm_num) (by norm_num)
    (456600 / 18017) buf512_detectB

/-- Claim C7: a block shorter than 512 samples, or a lag-bound combination
with `tauMin ≥ tauMax`, makes `detectPitchYIN` return `none`; the function is
total, so no error is signalled. -/
theorem detect_short_or_empty_range_none (buffer : Samples) (sampleRate : ℚ)
    (opts : YinOptions)
    (h : buffer.size < 512 ∨
      yinTauMax buffer.size sampleRate opts.minFreq ≤ yinTauMin sampleRate opts.maxFreq) :
    detectPitchYIN buffer sampleRate opts = none := by
  unfold detectPitchYIN
  by_cases h512 : buffer.size < 512
  · rw [if_pos h512]
  · rw [if_neg h512, if_pos (h.resolve_left h512)]

/-- Witness for C7: an empty block, and a 512-sample block whose rate and
frequency bounds collapse the lag range (`tauMin = tauMax = 2`). -/
theorem detect_short_or_empty_range_none_witness :
    detectPitchYIN ⟨0, fun _ => 0⟩ 100 ⟨10, 25, 1 / 10⟩ = none ∧
    detectPitchYIN ⟨512, fun _ => 0⟩ 100 ⟨50, 2000, 1 / 10⟩ = none :=
  ⟨detect_short_or_empty_range_none ⟨0, fun _ => 0⟩ 100 ⟨10, 25, 1 / 10⟩ (Or.inl (by decide)),
   detect_short_or_empty_range_none ⟨512, fun _ => 0⟩ 100 ⟨50, 2000, 1 / 10⟩
    (Or.inr (by with_unfolding_all decide))⟩

lemma foldl_fallbackStep_isSome (f : ℕ → ℚ) :
    ∀ (l : List ℕ) (acc : Option (ℚ × ℕ)), acc.isSome = true →
      (l.foldl (fallbackStep f) acc).isSome = true := by
  intro l
  induction l with
  | nil => intro acc h; exact h
  | cons a rest ih =>
    intro acc h
    rw [List.foldl_cons]
    apply ih
    cases acc with
    | none => exact absurd h (by simp)
    | some p =>
      obtain ⟨mv, te⟩ := p
      rw [fallbackStep]
      split <;> rfl

/-- Claim C10: with a nonempty lag search range (`tauMin < tauMax`, as
established before the fallback search runs on a block of at least 512
samples), the fallback global-minimum scan always selects a candidate — the
`tauEstimate === -1` return inside the fallback is unreachable.  (In the
exact rational model every CMND value is finite, which is the claim's
finiteness proviso.) -/
theorem fallback_always_selects (buffer : Samples) (thr : ℚ) (tauMin tauMax : ℕ)
    (h512 : 512 ≤ buffer.size) (h : tauMin < tauMax) :
    yinCandidate buffer thr tauMin tauMax ≠ none := by
  unfold yinCandidate
  cases hfu : firstUnder (cmnd buffer) thr tauMin tauMax with
  | some t => simp
  | none =>
    show fallbackMin (cmnd buffer) tauMin tauMax ≠ none
    unfold fallbackMin
    obtain ⟨k, hk⟩ : ∃ k, tauMax + 1 - tauMin = k + 1 := ⟨tauMax - tauMin, by omega⟩
    rw [hk, List.range'_succ, List.foldl_cons]
    have h2 : ((List.range' (tauMin + 1) k).foldl (fallbackStep (cmnd buffer))
        (fallbackStep (cmnd buffer) none tauMin)).isSome = true :=
      foldl_fallbackStep_isSome (cmnd buffer) (List.range' (tauMin + 1) k)
        (fallbackStep (cmnd buffer) none tauMin) rfl
    intro hc
    rw [Option.map_eq_none'] at hc
    rw [hc] at h2
    exact absurd h2 (by simp)

/-- Witness for C10: on the period-4 test block with lag range `[2, 3]` the
candidate search cannot come back empty. -/
theorem fallback_always_selects_witness : yinCandidate buf512 (1 / 10) 2 3 ≠ none :=
  fallback_always_selects buf512 (1 / 10) 2 3 (by decide) (by decide)

/-- Counterexample to claim C3: on the period-4 test block with
`minFreq = 10, maxFreq = 25, threshold = 1/10` the candidate lag is `4`,
which equals `tauMin` (the lower boundary of the search range `[4, 10]`), yet
the code applies parabolic interpolation to it (the guard is `tau > 1`, and
`tauMin = max(2, ⋯) ≥ 2 > 1`): the refined lag `18017/4566 ≠ 4` pushes the
frequency to `≈ 25.34 > maxFreq`, so the result is `none` — not the
unrefined `sampleRate / tau = 25` the claim promises for a boundary
candidate. -/
theorem interp_applied_at_lower_boundary :
    yinTauMin 100 25 = 4 ∧
    yinTauMax buf512.size 100 10 = 10 ∧
    yinCandidate buf512 (1 / 10) 4 10 = some 4 ∧
    refineTau (cmnd buf512) 10 4 ≠ ((4 : ℕ) : ℚ) ∧
    detectPitchYIN buf512 100 ⟨10, 25, 1 / 10⟩ = none ∧
    detectPitchYIN buf512 100 ⟨10, 25, 1 / 10⟩ ≠ some (100 / 4) := by
  refine ⟨by with_unfolding_all decide, by with_unfolding_all decide, buf512_candA, ?_,
    buf512_detectA, ?_⟩
  · rw [buf512_ref]
    norm_num
  · rw [buf512_detectA]
    simp

/-- Claim C3 as amended: parabolic interpolation is applied only when
`1 < tau < tauMax`; since `tauMin ≥ 2`, a candidate equal to the lower
boundary `tauMin` IS refined whenever `tauMin < tauMax`, and only a candidate
at the upper boundary `tauMax` is returned unrefined — for it the reported
frequency is computed from exactly `sampleRate / tauMax` (then range-guarded
as always). -/
theorem interp_only_strictly_below_tauMax :
    (∀ (f : ℕ → ℚ) (tauMax t : ℕ), refineTau f tauMax t ≠ (t : ℚ) → 1 < t ∧ t < tauMax) ∧
    (∀ (buffer : Samples) (sampleRate : ℚ) (opts : YinOptions) (thr : ℚ) (tmin tmax : ℕ),
      ¬ buffer.size < 512 →
      opts.threshold = thr →
      yinTauMin sampleRate opts.maxFreq = tmin →
      yinTauMax buffer.size sampleRate opts.minFreq = tmax →
      ¬ tmax ≤ tmin →
      yinCandidate buffer thr tmin tmax = some tmax →
      detectPitchYIN buffer sampleRate opts = yinGuard opts (sampleRate / (tmax : ℚ))) := by
  constructor
  · intro f tauMax t h
    by_contra hno
    exact h (by rw [refineTau, if_neg hno])
  · intro buffer sr opts thr tmin tmax h512 hthr hmin hmax hr hc
    rw [detect_eq_finalize buffer sr opts thr tmin tmax tmax h512 hthr hmin hmax hr hc,
      yinFinalize_eq buffer sr opts tmax tmax hmax,
      refineTau, if_neg (show ¬ (1 < tmax ∧ tmax < tmax) by omega)]

/-- Witness for the amended C3: interpolation at the interior candidate `4`
of range `[4, 10]` is genuine (first part), and on the period-4 block with
`minFreq = 25, maxFreq = 50, threshold = 1/2` the candidate is the upper
boundary `tauMax = 4`, reported unrefined as exactly `100 / 4 = 25`. -/
theorem interp_only_strictly_below_tauMax_witness :
    ((1 : ℕ) < 4 ∧ (4 : ℕ) < 10) ∧
    detectPitchYIN buf512 100 ⟨25, 50, 1 / 2⟩ = some 25 := by
  constructor
  · exact interp_only_strictly_below_tauMax.1 (cmnd buf512) 10 4 (by rw [buf512_ref]; norm_num)
  · rw [interp_only_strictly_below_tauMax.2 buf512 100 ⟨25, 50, 1 / 2⟩ (1 / 2) 2 4 (by decide)
      rfl (by with_unfolding_all decide) (by with_unfolding_all decide) (by decide) buf512_candF]
    rw [yinGuard, show YinOptions.minFreq ⟨25, 50, 1 / 2⟩ = 25 from rfl,
      show YinOptions.maxFreq ⟨25, 50, 1 / 2⟩ = 50 from rfl]
    rw [if_neg (show ¬ (100 : ℚ) / ((4 : ℕ) : ℚ) ≤ 0 by norm_num)]
    rw [if_neg (show ¬ ((100 : ℚ) / ((4 : ℕ) : ℚ) < 25 ∨ (50 : ℚ) < 100 / ((4 : ℕ) : ℚ)) by
      push_neg
      constructor <;> norm_num)]
    rw [show (100 : ℚ) / ((4 : ℕ) : ℚ) = 25 by norm_num]

/-! ## Theorems about the MicPitch pipeline -/

/-- Invalid user options: `minFreq = 100 ≥ maxFreq = 50`. -/
def badOptions : UserOptions := { minFreq := some 100, maxFreq := some 50 }

/-- Counterexample to claim C1: the constructor performs no validation — with
`minFreq = 100 ≥ maxFreq = 50` the spec-mandated constructor refuses
(`specConstruct` yields `none`), but the code's constructor succeeds and
hands back a fully-initialized, usable instance storing the invalid
options verbatim. -/
theorem construct_accepts_invalid_options :
    specConstruct badOptions = none ∧
    construct badOptions
      = { options := mergeOptions badOptions, emaFreq := none, history := [], running := false } ∧
    (construct badOptions).options.minFreq = 100 ∧
    (construct badOptions).options.maxFreq = 50 ∧
    ¬ specValidOptions (construct badOptions).options := by
  have hbad : ¬ specValidOptions (mergeOptions badOptions) := by
    intro hvalid
    have h1 : (mergeOptions badOptions).minFreq = 100 := rfl
    have h2 : (mergeOptions badOptions).maxFreq = 50 := rfl
    have := hvalid.1
    rw [h1, h2] at this
    norm_num at this
  refine ⟨?_, rfl, rfl, rfl, hbad⟩
  rw [specConstruct, if_neg hbad]

/-- Claim C1 as amended: construction never fails and never validates — for
every option set (invalid ones included) the constructor produces the
instance whose options are the supplied fields merged over the defaults,
with absent smoothed state, empty history, and not running. -/
theorem construct_never_fails (p : UserOptions) :
    (construct p).options = mergeOptions p ∧
    (construct p).emaFreq = none ∧
    (construct p).history = [] ∧
    (construct p).running = false ∧
    (p.minFreq = none → (construct p).options.minFreq = 50) ∧
    (∀ v, p.minFreq = some v → (construct p).options.minFreq = v) ∧
    (∀ v, p.maxFreq = some v → (construct p).options.maxFreq = v) ∧
    (∀ v, p.smoothing = some v → (construct p).options.smoothing = v) := by
  refine ⟨rfl, rfl, rfl, rfl, fun h => ?_, fun v h => ?_, fun v h => ?_, fun v h => ?_⟩ <;>
    simp [construct, mergeOptions, h]

/-- Witness for the amended C1: at the invalid `badOptions` the constructor
still succeeds, storing `minFreq = 100`, `maxFreq = 50`. -/
theorem construct_never_fails_witness :
    (construct badOptions).options.minFreq = 100 ∧
    (construct badOptions).options.maxFreq = 50 ∧
    (construct badOptions).running = false :=
  ⟨(construct_never_fails badOptions).2.2.2.2.2.1 100 rfl,
   (construct_never_fails badOptions).2.2.2.2.2.2.1 50 rfl,
   (construct_never_fails badOptions).2.2.2.1⟩

/-- Claim C4: the smoothing step — absent current clears the state; a present
current bootstraps an absent prior; with both present and `alpha > 0` the
result is the clamped exponential average; with `alpha ≤ 0` the raw current
passes through. -/
theorem smoothStep_cases (prior current : Option ℚ) (alpha : ℚ) :
    (current = none → smoothStep prior current alpha = none) ∧
    (∀ c, current = some c → prior = none → smoothStep prior current alpha = some c) ∧
    (∀ c p, current = some c → prior = some p → 0 < alpha →
      smoothStep prior current alpha
        = some (min (max alpha 0) 1 * c + (1 - min (max alpha 0) 1) * p)) ∧
    (∀ c p, current = some c → prior = some p → alpha ≤ 0 →
      smoothStep prior current alpha = some c) := by
  refine ⟨fun h => ?_, fun c hc hp => ?_, fun c p hc hp ha => ?_, fun c p hc hp ha => ?_⟩
  · subst h; rfl
  · subst hc; subst hp; rfl
  · subst hc; subst hp
    show (if 0 < alpha then
        some (min (max alpha 0) 1 * c + (1 - min (max alpha 0) 1) * p) else some c) = _
    rw [if_pos ha]
  · subst hc; subst hp
    show (if 0 < alpha then
        some (min (max alpha 0) 1 * c + (1 - min (max alpha 0) 1) * p) else some c) = some c
    rw [if_neg (not_lt.mpr ha)]

/-- Witness for C4: all four smoothing cases at concrete values
(`smoothStep (some 100) (some 200) (1/2) = some 150`, etc.). -/
theorem smoothStep_cases_witness :
    smoothStep (some 100) none (1 / 4) = none ∧
    smoothStep none (some 200) (1 / 4) = some 200 ∧
    smoothStep (some 100) (some 200) (1 / 2)
      = some (min (max (1 / 2 : ℚ) 0) 1 * 200 + (1 - min (max (1 / 2 : ℚ) 0) 1) * 100) ∧
    smoothStep (some 100) (some 200) 0 = some 200 :=
  ⟨(smoothStep_cases (some 100) none (1 / 4)).1 rfl,
   (smoothStep_cases none (some 200) (1 / 4)).2.1 200 rfl rfl,
   (smoothStep_cases (some 100) (some 200) (1 / 2)).2.2.1 200 100 rfl rfl (by norm_num),
   (smoothStep_cases (some 100) (some 200) 0).2.2.2 200 100 rfl rfl le_rfl⟩

lemma trimFront_eq_filter (cutoff : ℚ) :
    ∀ l : List HistEntry, l.Pairwise (fun a b => a.t ≤ b.t) →
      trimFront cutoff l = l.filter (fun e => decide (cutoff ≤ e.t)) := by
  intro l
  induction l with
  | nil => intro _; rfl
  | cons e rest ih =>
    intro hl
    rw [List.pairwise_cons] at hl
    by_cases he : e.t < cutoff
    · have h1 : trimFront cutoff (e :: rest) = trimFront cutoff rest := by
        rw [trimFront, if_pos he]
      have h2 : List.filter (fun e2 => decide (cutoff ≤ e2.t)) (e :: rest)
          = List.filter (fun e2 => decide (cutoff ≤ e2.t)) rest :=
        List.filter_cons_of_neg (by simpa using not_le.mpr he)
      rw [h1, h2, ih hl.2]
    · have hle : cutoff ≤ e.t := not_lt.mp he
      have h1 : trimFront cutoff (e :: rest) = e :: rest := by
        rw [trimFront, if_neg he]
      have h2 : List.filter (fun e2 => decide (cutoff ≤ e2.t)) (e :: rest)
          = e :: List.filter (fun e2 => decide (cutoff ≤ e2.t)) rest :=
        List.filter_cons_of_pos (by simpa using hle)
      have h3 : List.filter (fun e2 => decide (cutoff ≤ e2.t)) rest = rest :=
        List.filter_eq_self.mpr (fun x hx => by simpa using le_trans hle (hl.1 x hx))
      rw [h1, h2, h3]

/-- Claim C6: after the cycle's history append at time `now`, the retained
history is exactly the appended history filtered to the entries at or after
the eviction cutoff `now - max(1, averageSeconds)·1000 - 200` — every older
entry is removed, no newer entry is removed (the history being
chronologically ordered, with every stored timestamp at most `now`). -/
theorem tick_evicts_expired_only (s : MicState) (freq : Option ℚ) (now : ℚ)
    (listeners : List Listener)
    (hchron : s.history.Pairwise (fun a b => a.t ≤ b.t))
    (hpast : ∀ e ∈ s.history, e.t ≤ now) :
    (tick s freq now listeners).1.history
      = (s.history ++ [HistEntry.mk now (smoothStep s.emaFreq freq s.options.smoothing)]).filter
          (fun e => decide (evictCutoff now s.options.averageSeconds ≤ e.t)) := by
  have hsorted :
      (s.history ++ [HistEntry.mk now (smoothStep s.emaFreq freq s.options.smoothing)]).Pairwise
      (fun a b => a.t ≤ b.t) := by
    rw [List.pairwise_append]
    refine ⟨hchron, List.pairwise_singleton _ _, fun a ha b hb => ?_⟩
    rw [List.mem_singleton] at hb
    subst hb
    exact hpast a ha
  exact trimFront_eq_filter (evictCutoff now s.options.averageSeconds) _ hsorted

/-- Witness for C6: a tick at `t = 2000` on a history holding one entry at
`t = 0` (cutoff `2000 - 1000 - 200 = 800`): the old entry is evicted and the
fresh entry survives. -/
theorem tick_evicts_expired_only_witness :
    (tick (MicState.mk (mergeOptions {}) (some 440) [HistEntry.mk 0 (some 440)] true)
        (some 440) 2000 []).1.history
      = [HistEntry.mk 2000 (some 440)] := by
  rw [tick_evicts_expired_only (MicState.mk (mergeOptions {}) (some 440)
    [HistEntry.mk 0 (some 440)] true) (some 440) 2000 [] (by simp)
    (by intro e he; rw [List.mem_singleton] at he; subst he; norm_num)]
  with_unfolding_all decide

lemma avgScan_eq (cutoff : ℚ) :
    ∀ (l : List HistEntry), l.Pairwise (fun a b => b.t ≤ a.t) →
      ∀ (s : ℚ) (c : ℕ),
        avgScan cutoff l s c = (s + (qualVals cutoff l).sum, c + (qualVals cutoff l).length) := by
  intro l
  induction l with
  | nil =>
    intro _ s c
    simp [avgScan, qualVals]
  | cons e rest ih =>
    intro hl s c
    rw [List.pairwise_cons] at hl
    by_cases he : e.t < cutoff
    · have hq : qualVals cutoff (e :: rest) = [] := by
        unfold qualVals
        rw [List.filter_cons_of_neg (by simpa using not_le.mpr he)]
        rw [List.filter_eq_nil_iff.mpr (fun x hx => by
          simpa using not_le.mpr (lt_of_le_of_lt (hl.1 x hx) he))]
        rfl
      rw [avgScan, if_pos he, hq]
      simp
    · have hle : cutoff ≤ e.t := not_lt.mp he
      rw [avgScan, if_neg he]
      cases hf : e.f with
      | some v =>
        have hq : qualVals cutoff (e :: rest) = v :: qualVals cutoff rest := by
          unfold qualVals
          rw [List.filter_cons_of_pos (by simpa using hle)]
          simp [List.filterMap_cons, hf]
        show avgScan cutoff rest (s + v) (c + 1) = _
        rw [ih hl.2 (s + v) (c + 1), hq]
        simp only [List.sum_cons, List.length_cons, Prod.mk.injEq]
        constructor
        · ring
        · omega
      | none =>
        have hq : qualVals cutoff (e :: rest) = qualVals cutoff rest := by
          unfold qualVals
          rw [List.filter_cons_of_pos (by simpa using hle)]
          simp [List.filterMap_cons, hf]
        show avgScan cutoff rest s c = _
        rw [ih hl.2 s c, hq]

/-- Claim C5: on a chronologically ordered history, `getAverageFrequency`
(which scans backwards from the most recent entry and stops at the first
entry older than `now - seconds·1000`) returns exactly the arithmetic mean
of the present values whose timestamp is at or after the cutoff — absent
entries count toward neither sum nor count — and `none` when no present
value qualifies. -/
theorem getAverageFrequency_mean_of_window (history : List HistEntry) (now w : ℚ)
    (hchron : history.Pairwise (fun a b => a.t ≤ b.t)) :
    getAverageFrequency history now w
      = if (qualVals (now - w * 1000) history).length = 0 then none
        else some ((qualVals (now - w * 1000) history).sum
          / ((qualVals (now - w * 1000) history).length : ℚ)) := by
  have hrev : history.reverse.Pairwise (fun a b => b.t ≤ a.t) := by
    rw [List.pairwise_reverse]
    exact hchron
  have h := avgScan_eq (now - w * 1000) history.reverse hrev 0 0
  have hq : qualVals (now - w * 1000) history.reverse
      = (qualVals (now - w * 1000) history).reverse := by
    unfold qualVals
    rw [List.filter_reverse, List.filterMap_reverse]
  rw [getAverageFrequency, h, hq, List.sum_reverse, List.length_reverse]
  simp

/-- Witness for C5: history `(0, 440), (100, absent), (200, 220)` queried at
`now = 200` with a 1-second window — both present values qualify, the absent
entry is skipped, and the mean is `(440 + 220) / 2 = 330`. -/
theorem getAverageFrequency_mean_of_window_witness :
    getAverageFrequency [⟨0, some 440⟩, ⟨100, none⟩, ⟨200, some 220⟩] 200 1 = some 330 := by
  rw [getAverageFrequency_mean_of_window [⟨0, some 440⟩, ⟨100, none⟩, ⟨200, some 220⟩] 200 1
    (by norm_num [List.pairwise_cons])]
  with_unfolding_all decide

/-- Claim C8: `_emit` isolates listener faults — every subscribed callback is
invoked exactly once with the same smoothed value, regardless of which
callbacks throw (the per-callback `try/catch` makes the loop continue past a
failure), and the cycle's resulting pipeline state is the same as if no
listener had been notified at all, hence the same as if none had failed. -/
theorem emit_isolates_listener_faults :
    (∀ (listeners : List Listener) (v : Option ℚ),
      emit listeners v = listeners.map (fun cb => cb v)) ∧
    (∀ (s : MicState) (freq : Option ℚ) (now : ℚ) (listeners : List Listener),
      (tick s freq now listeners).1 = (tick s freq now []).1) := by
  constructor
  · intro listeners v
    induction listeners with
    | nil => rfl
    | cons cb rest ih => rw [emit, List.map_cons, ih]
  · intro s freq now listeners
    rfl

/-- Claim C9: `start()` on a running pipeline and `stop()` on a stopped one
return immediately with the state unchanged; `start` and `stop` are
idempotent. -/
theorem start_stop_idempotent (s : MicState) :
    (s.running = true → start s = s) ∧
    (s.running = false → stop s = s) ∧
    start (start s) = start s ∧
    stop (stop s) = stop s := by
  by_cases h : s.running <;> simp [start, stop, h]

/-- Witness for C9: concrete running and stopped states. -/
theorem start_stop_idempotent_witness :
    start ⟨mergeOptions {}, none, [], true⟩ = ⟨mergeOptions {}, none, [], true⟩ ∧
    stop ⟨mergeOptions {}, none, [], false⟩ = ⟨mergeOptions {}, none, [], false⟩ :=
  ⟨(start_stop_idempotent ⟨mergeOptions {}, none, [], true⟩).1 rfl,
   (start_stop_idempotent ⟨mergeOptions {}, none, [], false⟩).2.1 rfl⟩

end MicPitchModel
